import Mathlib

set_option maxRecDepth 100000

/-!
Verification development for the EIA heat-rate estimation pipeline
(`assign_heat_rates_to_projects` and its helper `calculate_avg_heat_rate`
in `database_interface.py`).

The pandas dataframe pipeline is shallowly embedded as pure functions over
lists of records.  Heat rates are modelled as exact rationals `ℚ` (the
source's float literals `8.607`, `6.711` and the mean computations are
exact at these magnitudes); a pandas `NaN` / missing value is `none` of an
`Option ℚ`; code that can raise (positional indexing into an empty frame)
returns `Option`.
-/

/-- One generator-unit row of the EIA-860 derived table, restricted to the
columns the heat-rate logic reads.  `operationalStatus` is the
`Operational Status` column (the scraper writes exactly `"Operable"` or
`"Proposed"`). -/
structure GenUnit where
  plantCode : Nat
  primeMover : String
  energySource : String
  operationalStatus : String
  operatingYear : Int
  nameplateCapacity : ℚ
deriving DecidableEq, Repr

/-- One row of `historic_heat_rates_WIDE.tab`: a historical heat-rate
observation keyed by plant code, prime mover, energy source and year. -/
structure Obs where
  plantCode : Nat
  primeMover : String
  energySource : String
  year : Int
  bestHeatRate : ℚ
deriving DecidableEq, Repr

/-- A generator row after the left merge with the observations: the unit
together with its (possibly missing) `Best Heat Rate` column. -/
structure JoinedUnit where
  unit : GenUnit
  bestHeatRate : Option ℚ
deriving DecidableEq, Repr

/-- The `fuels` renaming dictionary applied with `DataFrame.replace` to the
`Energy Source` column of both the generators and the observations. -/
def fuelMapPairs : List (String × String) :=
  [("LFG", "Bio_Gas"), ("OBG", "Bio_Gas"), ("AB", "Bio_Solid"),
   ("BLQ", "Bio_Liquid"), ("NG", "Gas"), ("OG", "Gas"), ("PG", "Gas"),
   ("DFO", "DistillateFuelOil"), ("JF", "ResidualFuelOil"),
   ("COAL", "Coal"), ("GEO", "Geothermal"), ("NUC", "Uranium"),
   ("PC", "Coal"), ("SUN", "Solar"), ("WDL", "Bio_Liquid"),
   ("WDS", "Bio_Solid"), ("MSW", "Bio_Solid"), ("PUR", "Purchased_Steam"),
   ("WH", "Waste_Heat"), ("OTH", "Other"), ("WAT", "Water"),
   ("MWH", "Electricity"), ("WND", "Wind")]

/-- Replace an energy-source code by its renamed value (identity when the
code is not in the dictionary, as `DataFrame.replace` behaves). -/
def mapFuel (s : String) : String :=
  match fuelMapPairs.find? (fun p => decide (p.1 = s)) with
  | some p => p.2
  | none => s

/-- Apply the fuel renaming to a generator row. -/
def mapUnitFuel (u : GenUnit) : GenUnit :=
  { u with energySource := mapFuel u.energySource }

/-- Apply the fuel renaming to an observation row. -/
def mapObsFuel (o : Obs) : Obs :=
  { o with energySource := mapFuel o.energySource }

/-- The thermal prime movers: `['CC','GT','IC','ST']`. -/
def thermalPrimeMovers : List String := ["CC", "GT", "IC", "ST"]

/-- `Prime Mover.isin(['CC','GT','IC','ST'])`. -/
def isThermal (pm : String) : Bool := decide (pm ∈ thermalPrimeMovers)

/-- `heat_rate_data[heat_rate_data['Year']==year]` followed by the fuel
renaming: the observations joined against, for the target year. -/
def yearObs (obs : List Obs) (year : Int) : List Obs :=
  (obs.filter (fun o => decide (o.year = year))).map mapObsFuel

/-- The merge key of the left join: `['EIA Plant Code','Prime Mover','Energy Source']`. -/
def obsKeyMatch (u : GenUnit) (o : Obs) : Bool :=
  decide (o.plantCode = u.plantCode) && decide (o.primeMover = u.primeMover) &&
    decide (o.energySource = u.energySource)

/-- `pd.merge(existing_gens, heat_rate_data, how='left', on=key)`: every
unit row is kept; a row with matching observations is replicated once per
match carrying that observation's heat rate, a row without matches gets a
null heat rate. -/
def leftMergeHR (units : List GenUnit) (obsT : List Obs) : List JoinedUnit :=
  match units with
  | [] => []
  | u :: rest =>
    (if obsT.filter (fun o => obsKeyMatch u o) = [] then [⟨u, none⟩]
     else (obsT.filter (fun o => obsKeyMatch u o)).map
       (fun o => ⟨u, some o.bestHeatRate⟩)) ++ leftMergeHR rest obsT

/-- `DataFrame.drop_duplicates()`: keep the first occurrence of each fully
identical row. -/
def dropDupAux [DecidableEq α] : List α → List α → List α
  | _, [] => []
  | seen, a :: l =>
    if a ∈ seen then dropDupAux seen l else a :: dropDupAux (a :: seen) l

/-- `DataFrame.drop_duplicates()` on a whole table. -/
def dropDuplicates [DecidableEq α] (l : List α) : List α := dropDupAux [] l

/-- `thermal_gens['Best Heat Rate'].isnull()`. -/
def isNullHR (j : JoinedUnit) : Bool := j.bestHeatRate.isNone

/-- The `unrealistic_heat_rates` mask: Coal below `8.607`, any other fuel
below `6.711`.  A pandas comparison with `NaN` is `False`, hence the
`none` branch. -/
def isUnrealistic (j : JoinedUnit) : Bool :=
  match j.bestHeatRate with
  | none => false
  | some hr =>
    if j.unit.energySource = "Coal" then decide (hr < (8.607 : ℚ))
    else decide (hr < (6.711 : ℚ))

/-- The mask selecting `thermal_gens_w_hr` (the *valid* rows):
`~null_heat_rates & ~unrealistic_heat_rates`. -/
def isValidHR (j : JoinedUnit) : Bool := !(isNullHR j) && !(isUnrealistic j)

/-- Sort key used by `sort_values('Best Heat Rate')`; on the valid set
every row carries a value, so the default of the `Option` is irrelevant. -/
def hrKey (j : JoinedUnit) : ℚ := j.bestHeatRate.getD 0

/-- `thermal_gens_w_hr.sort_values('Best Heat Rate')`. -/
def sortByHR (l : List JoinedUnit) : List JoinedUnit :=
  l.insertionSort (fun a b => hrKey a ≤ hrKey b)

/-- `n_outliers = int(len(thermal_gens_w_hr)*0.008)`: `0.008 = 1/125`
exactly, and for table sizes in range the float product rounds to the
exact rational value, so this is the floor of `0.008 * c`. -/
def nOutliers (c : Nat) : Nat := c * 8 / 1000

/-- One positional assignment
`df.loc[df.index[i], 'Best Heat Rate'] = q`: read row `i`, write it back
with the heat-rate column replaced. -/
def setHR (tbl : List JoinedUnit) (i : Nat) (q : ℚ) : List JoinedUnit :=
  match tbl[i]? with
  | none => tbl
  | some j => tbl.set i ⟨j.unit, some q⟩

/-- The clipping loop
`for i in range(n): loc[index[i]] = min_hr; loc[index[-1-i]] = max_hr`
run over the sorted table. -/
def clipLoop (sorted : List JoinedUnit) (mn mx : ℚ) (n : Nat) : List JoinedUnit :=
  (List.range n).foldl
    (fun tbl i => setHR (setHR tbl i mn) (tbl.length - 1 - i) mx) sorted

/-- Step 3, outlier clipping, on the valid set.  The source reads
`index[n_outliers]` and `index[-1-n_outliers]` unconditionally; on an
empty valid set that positional access raises `IndexError`, modelled by
`none`. -/
def clipOutliers (l : List JoinedUnit) : Option (List JoinedUnit) :=
  let n := nOutliers l.length
  let sorted := sortByHR l
  match sorted[n]?, sorted[l.length - 1 - n]? with
  | some jmin, some jmax =>
    some (clipLoop sorted (hrKey jmin) (hrKey jmax) n)
  | _, _ => none

/-- The clip bounds `min_hr` / `max_hr` read off the sorted valid set
(`none` models the `IndexError` on the empty set). -/
def clipBounds (l : List JoinedUnit) : Option (ℚ × ℚ) :=
  let n := nOutliers l.length
  let sorted := sortByHR l
  match sorted[n]?, sorted[l.length - 1 - n]? with
  | some jmin, some jmax => some (hrKey jmin, hrKey jmax)
  | _, _ => none

/-- The similarity filter of `calculate_avg_heat_rate`: same prime mover,
same energy source, operating year within `[vintage-window, vintage+window]`. -/
def matchesPMES (ref : List JoinedUnit) (pm es : String) (v : Int) (w : Nat) :
    List JoinedUnit :=
  ref.filter (fun j =>
    decide (j.unit.primeMover = pm) && decide (j.unit.energySource = es) &&
      decide (v - (w : Int) ≤ j.unit.operatingYear) &&
      decide (j.unit.operatingYear ≤ v + (w : Int)))

/-- The heat rates of a set of rows; pandas `.mean()` skips `NaN`, so only
the present values are collected. -/
def hrVals (l : List JoinedUnit) : List ℚ := l.filterMap (fun j => j.bestHeatRate)

/-- Pandas `Series.mean()`: the mean of the present values, `NaN` (`none`)
when there are none. -/
def meanHR (l : List ℚ) : Option ℚ :=
  match l with
  | [] => none
  | _ => some (l.sum / l.length)

/-- The `while len(similar) < 4` expanding-window loop of
`calculate_avg_heat_rate`: grow the window by 2, recompute the matches,
and stop as soon as the recomputation happened at `window >= 90`.  The
structural `fuel` argument only bounds the recursion depth; the loop runs
at most 44 iterations (windows 4,6,...,90), so any fuel of at least 44
gives the loop's exact behaviour (proved below). -/
def hrLoop (ref : List JoinedUnit) (pm es : String) (v : Int) :
    Nat → Nat → List JoinedUnit → List JoinedUnit
  | 0, _, similar => similar
  | fuel + 1, w, similar =>
    if similar.length < 4 then
      let s := matchesPMES ref pm es v (w + 2)
      if 90 ≤ w + 2 then s else hrLoop ref pm es v fuel (w + 2) s
    else similar

/-- `calculate_avg_heat_rate(thermal_gens_df, prime_mover, energy_source,
vintage)` with the default starting window of 2: run the expanding-window
loop, then return the mean of the matches, falling back to the
whole-technology mean (itself `NaN` when no row shares the prime mover). -/
def calculate_avg_heat_rate (ref : List JoinedUnit) (pm es : String) (v : Int) :
    Option ℚ :=
  if 0 < (hrLoop ref pm es v 45 2 (matchesPMES ref pm es v 2)).length then
    meanHR (hrVals (hrLoop ref pm es v 45 2 (matchesPMES ref pm es v 2)))
  else meanHR (hrVals (ref.filter (fun j => decide (j.unit.primeMover = pm))))

/-- Instrumented copy of `hrLoop` that also counts the loop iterations
(window expansions) performed. -/
def hrLoopCount (ref : List JoinedUnit) (pm es : String) (v : Int) :
    Nat → Nat → List JoinedUnit → List JoinedUnit × Nat
  | 0, _, similar => (similar, 0)
  | fuel + 1, w, similar =>
    if similar.length < 4 then
      let s := matchesPMES ref pm es v (w + 2)
      if 90 ≤ w + 2 then (s, 1)
      else
        let r := hrLoopCount ref pm es v fuel (w + 2) s
        (r.1, r.2 + 1)
    else (similar, 0)

/-- The candidate windows `[2, 4, ..., 90]` of the expanding search. -/
def windowCandidates : List Nat := (List.range' 1 45).map (fun k => 2 * k)

/-- The window at which the expanding search settles, as the spec words
it: the smallest window in `{2,4,...}` yielding at least 4 matches, or 90
(the widest window the loop reaches) when no window up to 90 does. -/
def smallestWindow (ref : List JoinedUnit) (pm es : String) (v : Int) : Nat :=
  (windowCandidates.find?
    (fun w => decide (4 ≤ (matchesPMES ref pm es v w).length))).getD 90

/-- The row-wise imputation assignment
`loc[idx,'Best Heat Rate'] = calculate_avg_heat_rate(w_hr, pm, es, v)`,
reading `pm`, `es` from row `idx` of the current table and the vintage
through `vOf` (the row's own operating year for existing units, the
filing year for proposed units). -/
def imputeStep (clipped : List JoinedUnit) (vOf : GenUnit → Int)
    (tbl : List JoinedUnit) (i : Nat) : List JoinedUnit :=
  match tbl[i]? with
  | none => tbl
  | some j =>
    tbl.set i ⟨j.unit, calculate_avg_heat_rate clipped j.unit.primeMover
      j.unit.energySource (vOf j.unit)⟩

/-- The `for idx in df.index:` imputation loop, processing the rows of
`tbl` in the order given by `order` (the source iterates the index in
table order, i.e. `List.range tbl.length`). -/
def imputeSeq (clipped : List JoinedUnit) (vOf : GenUnit → Int)
    (tbl : List JoinedUnit) (order : List Nat) : List JoinedUnit :=
  order.foldl (imputeStep clipped vOf) tbl

/-- The pure per-row imputation: the row's heat rate becomes the similar-
units average for its own prime mover and energy source at vintage `vOf`. -/
def imputeRow (clipped : List JoinedUnit) (vOf : GenUnit → Int)
    (j : JoinedUnit) : JoinedUnit :=
  ⟨j.unit, calculate_avg_heat_rate clipped j.unit.primeMover
    j.unit.energySource (vOf j.unit)⟩

/-- `generators.replace({'Energy Source':fuels})`: the generator table
after the fuel renaming, the table all later stages read. -/
def mappedGens (gens : List GenUnit) : List GenUnit := gens.map mapUnitFuel

/-- `existing_gens = generators[generators['Operational Status']=='Operable']`. -/
def operableOf (gens : List GenUnit) : List GenUnit :=
  (mappedGens gens).filter (fun u => decide (u.operationalStatus = "Operable"))

/-- `proposed_gens = generators[generators['Operational Status']=='Proposed']`. -/
def proposedOf (gens : List GenUnit) : List GenUnit :=
  (mappedGens gens).filter (fun u => decide (u.operationalStatus = "Proposed"))

/-- `pd.merge(existing_gens, heat_rate_data, how='left', on=key).drop_duplicates()`. -/
def joinedRows (gens : List GenUnit) (obs : List Obs) (year : Int) :
    List JoinedUnit :=
  dropDuplicates (leftMergeHR (operableOf gens) (yearObs obs year))

/-- `thermal_gens = thermal_gens[thermal_gens['Prime Mover'].isin(['CC','GT','IC','ST'])]`. -/
def thermalJoined (gens : List GenUnit) (obs : List Obs) (year : Int) :
    List JoinedUnit :=
  (joinedRows gens obs year).filter (fun j => isThermal j.unit.primeMover)

/-- `thermal_gens_w_hr = thermal_gens[~null_heat_rates & ~unrealistic_heat_rates]`. -/
def validRows (gens : List GenUnit) (obs : List Obs) (year : Int) :
    List JoinedUnit :=
  (thermalJoined gens obs year).filter isValidHR

/-- `thermal_gens_wo_hr = thermal_gens[null_heat_rates | unrealistic_heat_rates]`. -/
def invalidRows (gens : List GenUnit) (obs : List Obs) (year : Int) :
    List JoinedUnit :=
  (thermalJoined gens obs year).filter (fun j => isNullHR j || isUnrealistic j)

/-- The valid set after Step 3's clipping (`none` when the clipping code
raises on an empty valid set). -/
def clippedValid (gens : List GenUnit) (obs : List Obs) (year : Int) :
    Option (List JoinedUnit) :=
  clipOutliers (validRows gens obs year)

/-- `pd.merge(existing_gens, thermal_gens, on=list(existing_gens.columns),
how='left')`: every Operable row, matched by full row equality against the
processed thermal table; a row with matches is replicated once per match
(keeping the match's heat rate), a row without matches gets a null column. -/
def leftMergeBack (units : List GenUnit) (tbl : List JoinedUnit) :
    List JoinedUnit :=
  match units with
  | [] => []
  | u :: rest =>
    (if tbl.filter (fun j => decide (j.unit = u)) = [] then [⟨u, none⟩]
     else tbl.filter (fun j => decide (j.unit = u))) ++ leftMergeBack rest tbl

/-- The whole of `assign_heat_rates_to_projects(generators, year)`:
join, classify, clip, impute the missing/unrealistic existing rows (in
table order, vintage = own operating year), merge back into the Operable
table, impute the proposed thermal rows (vintage = the filing `year`),
null out the non-thermal proposed rows, and concatenate.  `none` models
the `IndexError` raised by the clipping step on an empty valid set. -/
def assignHeatRates (gens : List GenUnit) (obs : List Obs) (year : Int) :
    Option (List JoinedUnit) :=
  match clipOutliers (validRows gens obs year) with
  | none => none
  | some clipped =>
    let wo := invalidRows gens obs year
    let imputedExisting :=
      imputeSeq clipped (fun u => u.operatingYear) wo (List.range wo.length)
    let thermalAll := clipped ++ imputedExisting
    let existingOut := leftMergeBack (operableOf gens) thermalAll
    let proposed := proposedOf gens
    let thermalProposed := proposed.filter (fun u => isThermal u.primeMover)
    let otherProposed := proposed.filter (fun u => !(isThermal u.primeMover))
    let tp0 := thermalProposed.map (fun u => (⟨u, none⟩ : JoinedUnit))
    let proposedImputed :=
      imputeSeq clipped (fun _ => year) tp0 (List.range tp0.length)
    let otherOut := otherProposed.map (fun u => (⟨u, none⟩ : JoinedUnit))
    some (existingOut ++ (proposedImputed ++ otherOut))

instance : IsTotal JoinedUnit (fun a b => hrKey a ≤ hrKey b) :=
  ⟨fun a b => le_total (hrKey a) (hrKey b)⟩

instance : IsTrans JoinedUnit (fun a b => hrKey a ≤ hrKey b) :=
  ⟨fun _ _ _ hab hbc => le_trans hab hbc⟩

/-- The full behaviour of Step 3 on a nonempty valid set, as the spec
describes it: with `c` rows and `n = floor(0.008*c)`, `min_hr`/`max_hr`
are the sorted values at ranks `n` and `c-1-n`, the `n` lowest-ranked rows
are set to `min_hr`, the `n` highest-ranked to `max_hr`, and all the rows
in between are untouched. -/
def ClipSpec (l : List JoinedUnit) : Prop :=
  ∃ out jn jx,
    clipOutliers l = some out ∧
    (sortByHR l)[nOutliers l.length]? = some jn ∧
    (sortByHR l)[l.length - 1 - nOutliers l.length]? = some jx ∧
    clipBounds l = some (hrKey jn, hrKey jx) ∧
    jn.bestHeatRate = some (hrKey jn) ∧
    jx.bestHeatRate = some (hrKey jx) ∧
    out.length = l.length ∧
    (∀ i, i < nOutliers l.length →
      out[i]? = ((sortByHR l)[i]?).map (fun j => ⟨j.unit, some (hrKey jn)⟩)) ∧
    (∀ i, l.length - nOutliers l.length ≤ i → i < l.length →
      out[i]? = ((sortByHR l)[i]?).map (fun j => ⟨j.unit, some (hrKey jx)⟩)) ∧
    (∀ i, nOutliers l.length ≤ i → i < l.length - nOutliers l.length →
      out[i]? = (sortByHR l)[i]?)

/-- The heat-rate value a unit picks up in the left merge: the value of
the first observation matching its key (none when no observation does). -/
def joinVal (obsT : List Obs) (u : GenUnit) : Option ℚ :=
  ((obsT.filter (fun o => obsKeyMatch u o)).head?).map (fun o => o.bestHeatRate)

/-- The spec's data-model assumption on the observation table: any two
observations carrying the same (plant code, prime mover, energy source)
key report the same heat rate ("observations are assumed consistent"). -/
def ObsConsistent (obsT : List Obs) : Prop :=
  ∀ o1 ∈ obsT, ∀ o2 ∈ obsT, o1.plantCode = o2.plantCode →
    o1.primeMover = o2.primeMover → o1.energySource = o2.energySource →
    o1.bestHeatRate = o2.bestHeatRate


/-- Concrete example data used by the witnesses: a valid Operable gas
turbine, an Operable one with no observation, a Proposed one, a hydro
unit, and one whose reported heat rate 5.0 is below the non-coal floor. -/
def exU1 : GenUnit := ⟨1, "GT", "NG", "Operable", 2000, 100⟩

/-- Operable thermal example unit with no matching observation. -/
def exU2 : GenUnit := ⟨2, "GT", "NG", "Operable", 2001, 50⟩

/-- Proposed thermal example unit. -/
def exU3 : GenUnit := ⟨3, "GT", "NG", "Proposed", 2030, 200⟩

/-- Non-thermal (hydro) example unit. -/
def exU4 : GenUnit := ⟨4, "HY", "WAT", "Operable", 1980, 30⟩

/-- Example unit whose joined reading of 5.0 is unrealistically low. -/
def exU5 : GenUnit := ⟨5, "GT", "NG", "Operable", 2001, 50⟩

/-- Observation giving `exU1` a heat rate of 9. -/
def exObs1 : Obs := ⟨1, "GT", "NG", 2015, 9⟩

/-- Observation giving `exU5` the implausible heat rate 5.0. -/
def exObs5 : Obs := ⟨5, "GT", "NG", 2015, 5⟩

/-- Example generator table. -/
def exGens : List GenUnit := [exU1, exU2, exU4, exU3]

/-- Example observation table. -/
def exObsList : List Obs := [exObs1]

/-- The pipeline output on the example tables. -/
def exOut : List JoinedUnit := (assignHeatRates exGens exObsList 2015).getD []

/-- The clipped valid set of the example tables. -/
def exClipped : List JoinedUnit := (clippedValid exGens exObsList 2015).getD []

/-- Generator table for the unrealistic-reading example. -/
def exGens4 : List GenUnit := [exU1, exU5]

/-- Observation table for the unrealistic-reading example. -/
def exObsList4 : List Obs := [exObs1, exObs5]

/-- Pipeline output for the unrealistic-reading example. -/
def exOut4 : List JoinedUnit := (assignHeatRates exGens4 exObsList4 2015).getD []

theorem mem_dropDupAux [DecidableEq α] (l : List α) : ∀ (seen : List α) (a : α),
    a ∈ dropDupAux seen l ↔ a ∈ l ∧ a ∉ seen := by
  induction l with
  | nil => intro seen a; simp [dropDupAux]
  | cons b l ih =>
    intro seen a
    by_cases hb : b ∈ seen
    · rw [dropDupAux, if_pos hb, ih]
      by_cases hab : a = b
      · subst hab; simp [hb]
      · simp [List.mem_cons, hab]
    · rw [dropDupAux, if_neg hb]
      by_cases hab : a = b
      · subst hab; simp [hb]
      · simp [List.mem_cons, hab, ih]

theorem nodup_dropDupAux [DecidableEq α] (l : List α) : ∀ (seen : List α),
    (dropDupAux seen l).Nodup := by
  induction l with
  | nil => intro seen; simp [dropDupAux]
  | cons b l ih =>
    intro seen
    by_cases hb : b ∈ seen
    · rw [dropDupAux, if_pos hb]; exact ih seen
    · rw [dropDupAux, if_neg hb]
      refine List.nodup_cons.mpr ⟨?_, ih _⟩
      rw [mem_dropDupAux]
      rintro ⟨-, hmem⟩
      exact hmem (List.mem_cons_self b seen)

theorem mem_dropDuplicates [DecidableEq α] (l : List α) (a : α) :
    a ∈ dropDuplicates l ↔ a ∈ l := by
  rw [dropDuplicates, mem_dropDupAux]; simp

theorem nodup_dropDuplicates [DecidableEq α] (l : List α) :
    (dropDuplicates l).Nodup := nodup_dropDupAux l []

theorem length_setHR (tbl : List JoinedUnit) (i : Nat) (q : ℚ) :
    (setHR tbl i q).length = tbl.length := by
  unfold setHR
  cases h : tbl[i]? with
  | none => rfl
  | some j => simp [List.length_set]

theorem getElem?_setHR_self (tbl : List JoinedUnit) (i : Nat) (q : ℚ) :
    (setHR tbl i q)[i]? = (tbl[i]?).map (fun j => ⟨j.unit, some q⟩) := by
  unfold setHR
  cases h : tbl[i]? with
  | none => rw [h]; rfl
  | some j =>
    obtain ⟨hlt, -⟩ := List.getElem?_eq_some.mp h
    show (tbl.set i ⟨j.unit, some q⟩)[i]? = some ⟨j.unit, some q⟩
    exact List.getElem?_set_self hlt

theorem getElem?_setHR_ne (tbl : List JoinedUnit) (i k : Nat) (q : ℚ)
    (hik : i ≠ k) : (setHR tbl i q)[k]? = tbl[k]? := by
  unfold setHR
  cases h : tbl[i]? with
  | none => rfl
  | some j => exact List.getElem?_set_ne hik

theorem length_clipLoop (sorted : List JoinedUnit) (mn mx : ℚ) :
    ∀ (n : Nat), (clipLoop sorted mn mx n).length = sorted.length := by
  intro n
  induction n with
  | zero => rfl
  | succ k ih =>
    rw [clipLoop, List.range_succ, List.foldl_append] at *
    simp only [List.foldl_cons, List.foldl_nil]
    rw [length_setHR, length_setHR]
    exact ih

theorem getElem?_clipLoop (sorted : List JoinedUnit) (mn mx : ℚ) :
    ∀ (n : Nat), 2 * n ≤ sorted.length → ∀ (i : Nat),
      (clipLoop sorted mn mx n)[i]? =
        if i < n then (sorted[i]?).map (fun j => ⟨j.unit, some mn⟩)
        else if sorted.length - n ≤ i then
          (sorted[i]?).map (fun j => ⟨j.unit, some mx⟩)
        else sorted[i]? := by
  intro n
  induction n with
  | zero =>
    intro _ i
    have h0 : sorted.length - 0 ≤ i ↔ sorted.length ≤ i := by omega
    by_cases hi : sorted.length ≤ i
    · have : sorted[i]? = none := List.getElem?_eq_none hi
      simp [clipLoop, this, hi, h0]
    · simp [clipLoop, hi, h0]
  | succ k ih =>
    intro hk i
    have hc : 2 * k ≤ sorted.length := by omega
    have hT : (clipLoop sorted mn mx k).length = sorted.length :=
      length_clipLoop sorted mn mx k
    rw [clipLoop, List.range_succ, List.foldl_append]
    simp only [List.foldl_cons, List.foldl_nil]
    rw [← clipLoop]
    set T := clipLoop sorted mn mx k with hTdef
    set c := sorted.length with hcdef
    have hkc : k < c - 1 - k := by omega
    by_cases hi1 : i = c - 1 - k
    · subst hi1
      rw [hT]
      rw [getElem?_setHR_self]
      rw [getElem?_setHR_ne T k _ mn (by omega)]
      rw [ih hc]
      have h1 : ¬(c - 1 - k < k) := by omega
      have h2 : ¬(c - k ≤ c - 1 - k) := by omega
      rw [if_neg h1, if_neg h2]
      have h3 : ¬(c - 1 - k < k + 1) := by omega
      have h4 : c - (k + 1) ≤ c - 1 - k := by omega
      rw [if_neg h3, if_pos h4]
    · rw [hT, getElem?_setHR_ne _ _ _ _ (fun h => hi1 h.symm)]
      by_cases hi2 : i = k
      · subst hi2
        rw [getElem?_setHR_self, ih hc]
        rw [if_neg (by omega : ¬(i < i)), if_neg (by omega : ¬(c - i ≤ i)),
          if_pos (by omega : i < i + 1)]
      · rw [getElem?_setHR_ne _ _ _ _ (fun h => hi2 h.symm), ih hc]
        by_cases hb1 : i < k
        · rw [if_pos hb1, if_pos (by omega : i < k + 1)]
        · rw [if_neg hb1]
          by_cases hb2 : c - k ≤ i
          · rw [if_pos hb2, if_neg (by omega : ¬(i < k + 1)),
              if_pos (by omega : c - (k + 1) ≤ i)]
          · rw [if_neg hb2, if_neg (by omega : ¬(i < k + 1)),
              if_neg (by omega : ¬(c - (k + 1) ≤ i))]

theorem hrLoop_window_spec (ref : List JoinedUnit) (pm es : String) (v : Int) :
    ∀ (d k fuel : Nat), k + d = 44 → 1 ≤ k → d + 1 ≤ fuel →
      hrLoop ref pm es v fuel (2 * k) (matchesPMES ref pm es v (2 * k)) =
        matchesPMES ref pm es v
          ((((List.range' k (46 - k)).map (fun j => 2 * j)).find?
              (fun w => decide (4 ≤ (matchesPMES ref pm es v w).length))).getD 90) := by
  intro d
  induction d with
  | zero =>
    intro k fuel hk hk1 hfuel
    have hk44 : k = 44 := by omega
    subst hk44
    obtain ⟨f, rfl⟩ : ∃ f, fuel = f + 1 := ⟨fuel - 1, by omega⟩
    have hr : List.range' 44 (46 - 44) = [44, 45] := rfl
    rw [hr]
    by_cases h4 : (matchesPMES ref pm es v (2 * 44)).length < 4
    · rw [hrLoop, if_pos h4, if_pos (by omega : 90 ≤ 2 * 44 + 2)]
      have hmap : ([44, 45].map (fun j => 2 * j)) = [88, 90] := rfl
      rw [hmap, List.find?_cons_of_neg _ (by simpa using (by omega : ¬(4 ≤ (matchesPMES ref pm es v (2 * 44)).length)))]
      by_cases h90 : (4 ≤ (matchesPMES ref pm es v 90).length)
      · rw [List.find?_cons_of_pos _ (by simpa using h90)]
        rfl
      · rw [List.find?_cons_of_neg _ (by simpa using h90)]
        rfl
    · rw [hrLoop, if_neg h4]
      have hmap : ([44, 45].map (fun j => 2 * j)) = [88, 90] := rfl
      rw [hmap, List.find?_cons_of_pos _ (by simpa using (by omega : 4 ≤ (matchesPMES ref pm es v (2 * 44)).length))]
      rfl
  | succ d ih =>
    intro k fuel hk hk1 hfuel
    obtain ⟨f, rfl⟩ : ∃ f, fuel = f + 1 := ⟨fuel - 1, by omega⟩
    have hrange : List.range' k (46 - k) = k :: List.range' (k + 1) (46 - (k + 1)) := by
      have h1 : 46 - k = (46 - (k + 1)) + 1 := by omega
      rw [h1, List.range'_succ]
    rw [hrange, List.map_cons]
    by_cases h4 : (matchesPMES ref pm es v (2 * k)).length < 4
    · rw [hrLoop, if_pos h4, if_neg (by omega : ¬(90 ≤ 2 * k + 2))]
      have h2 : 2 * k + 2 = 2 * (k + 1) := by ring
      rw [h2]
      rw [ih (k + 1) f (by omega) (by omega) (by omega)]
      rw [List.find?_cons_of_neg _ (by simpa using (by omega : ¬(4 ≤ (matchesPMES ref pm es v (2 * k)).length)))]
    · rw [hrLoop, if_neg h4]
      rw [List.find?_cons_of_pos _ (by simpa using (by omega : 4 ≤ (matchesPMES ref pm es v (2 * k)).length))]
      rfl

theorem hrLoopCount_fst (ref : List JoinedUnit) (pm es : String) (v : Int) :
    ∀ (fuel w : Nat) (s : List JoinedUnit),
      (hrLoopCount ref pm es v fuel w s).1 = hrLoop ref pm es v fuel w s := by
  intro fuel
  induction fuel with
  | zero => intro w s; rfl
  | succ f ih =>
    intro w s
    rw [hrLoopCount, hrLoop]
    by_cases h4 : s.length < 4
    · rw [if_pos h4, if_pos h4]
      by_cases h90 : 90 ≤ w + 2
      · rw [if_pos h90, if_pos h90]
      · rw [if_neg h90, if_neg h90]
        exact ih (w + 2) _
    · rw [if_neg h4, if_neg h4]

theorem hrLoopCount_le (ref : List JoinedUnit) (pm es : String) (v : Int) :
    ∀ (fuel w : Nat) (s : List JoinedUnit), 2 ≤ w → w ≤ 88 → w % 2 = 0 →
      (hrLoopCount ref pm es v fuel w s).2 ≤ (90 - w) / 2 := by
  intro fuel
  induction fuel with
  | zero => intro w s _ _ _; exact Nat.zero_le _
  | succ f ih =>
    intro w s hw2 hw88 hpar
    rw [hrLoopCount]
    by_cases h4 : s.length < 4
    · rw [if_pos h4]
      by_cases h90 : 90 ≤ w + 2
      · rw [if_pos h90]
        show 1 ≤ (90 - w) / 2
        omega
      · rw [if_neg h90]
        show (hrLoopCount ref pm es v f (w + 2) _).2 + 1 ≤ (90 - w) / 2
        have hrec := ih (w + 2) (matchesPMES ref pm es v (w + 2)) (by omega)
          (by omega) (by omega)
        omega
    · rw [if_neg h4]
      exact Nat.zero_le _

theorem getElem?_imputeStep (clipped : List JoinedUnit) (vOf : GenUnit → Int)
    (tbl : List JoinedUnit) (a i : Nat) :
    (imputeStep clipped vOf tbl a)[i]? =
      if i = a then (tbl[i]?).map (imputeRow clipped vOf) else tbl[i]? := by
  unfold imputeStep
  cases h : tbl[a]? with
  | none =>
    by_cases hia : i = a
    · subst hia; rw [if_pos rfl, h]; rfl
    · rw [if_neg hia]
  | some j =>
    obtain ⟨hlt, -⟩ := List.getElem?_eq_some.mp h
    by_cases hia : i = a
    · subst hia
      rw [if_pos rfl, h]
      exact List.getElem?_set_self hlt
    · rw [if_neg hia]
      exact List.getElem?_set_ne (fun hh => hia hh.symm)

theorem getElem?_imputeSeq (clipped : List JoinedUnit) (vOf : GenUnit → Int) :
    ∀ (order : List Nat) (tbl : List JoinedUnit) (i : Nat),
      (imputeSeq clipped vOf tbl order)[i]? =
        if i ∈ order then (tbl[i]?).map (imputeRow clipped vOf) else tbl[i]? := by
  intro order
  induction order with
  | nil => intro tbl i; simp [imputeSeq]
  | cons a order ih =>
    intro tbl i
    show (imputeSeq clipped vOf (imputeStep clipped vOf tbl a) order)[i]? = _
    rw [ih, getElem?_imputeStep]
    have hidem : ∀ (x : Option JoinedUnit),
        (x.map (imputeRow clipped vOf)).map (imputeRow clipped vOf) =
          x.map (imputeRow clipped vOf) := by
      intro x; cases x with
      | none => rfl
      | some j => rfl
    by_cases hio : i ∈ order
    · rw [if_pos hio, if_pos (List.mem_cons.mpr (Or.inr hio))]
      by_cases hia : i = a
      · rw [if_pos hia, hidem]
      · rw [if_neg hia]
    · rw [if_neg hio]
      by_cases hia : i = a
      · rw [if_pos hia, if_pos (List.mem_cons.mpr (Or.inl hia))]
      · rw [if_neg hia, if_neg (by simp [List.mem_cons, hia, hio])]

theorem imputeSeq_of_perm_range (clipped : List JoinedUnit) (vOf : GenUnit → Int)
    (tbl : List JoinedUnit) (order : List Nat)
    (hperm : order.Perm (List.range tbl.length)) :
    imputeSeq clipped vOf tbl order = tbl.map (imputeRow clipped vOf) := by
  apply List.ext_getElem?
  intro i
  rw [getElem?_imputeSeq, List.getElem?_map]
  by_cases hi : i < tbl.length
  · rw [if_pos (hperm.mem_iff.mpr (List.mem_range.mpr hi))]
  · rw [if_neg (fun hmem => hi (List.mem_range.mp (hperm.mem_iff.mp hmem)))]
    rw [List.getElem?_eq_none (by omega)]
    rfl

theorem imputeSeq_range (clipped : List JoinedUnit) (vOf : GenUnit → Int)
    (tbl : List JoinedUnit) :
    imputeSeq clipped vOf tbl (List.range tbl.length) =
      tbl.map (imputeRow clipped vOf) :=
  imputeSeq_of_perm_range clipped vOf tbl _ (List.Perm.refl _)

theorem sortByHR_perm (l : List JoinedUnit) : (sortByHR l).Perm l :=
  List.perm_insertionSort _ l

theorem sortByHR_length (l : List JoinedUnit) : (sortByHR l).length = l.length :=
  List.length_insertionSort _ l

theorem sortByHR_sorted (l : List JoinedUnit) :
    (sortByHR l).Sorted (fun a b => hrKey a ≤ hrKey b) :=
  List.sorted_insertionSort _ l

theorem nOutliers_lt (c : Nat) (hc : 1 ≤ c) : nOutliers c < c := by
  unfold nOutliers; omega

theorem nOutliers_two_lt (c : Nat) (hc : 1 ≤ c) : 2 * nOutliers c < c := by
  unfold nOutliers; omega

theorem isSome_eq_some_hrKey (j : JoinedUnit) (h : j.bestHeatRate.isSome = true) :
    j.bestHeatRate = some (hrKey j) := by
  cases hh : j.bestHeatRate with
  | none => rw [hh] at h; simp at h
  | some q => rw [hrKey, hh]; rfl

theorem clipOutliers_char (l : List JoinedUnit) (hne : l ≠ [])
    (hsome : ∀ j ∈ l, j.bestHeatRate.isSome = true) : ClipSpec l := by
  have hc : 1 ≤ l.length := List.length_pos.mpr hne
  have hsl : (sortByHR l).length = l.length := sortByHR_length l
  have hn : nOutliers l.length < l.length := nOutliers_lt _ hc
  have h2n : 2 * nOutliers l.length < l.length := nOutliers_two_lt _ hc
  obtain ⟨jn, hjn⟩ : ∃ jn, (sortByHR l)[nOutliers l.length]? = some jn := by
    cases h : (sortByHR l)[nOutliers l.length]? with
    | none => rw [List.getElem?_eq_none_iff] at h; omega
    | some j => exact ⟨j, rfl⟩
  obtain ⟨jx, hjx⟩ :
      ∃ jx, (sortByHR l)[l.length - 1 - nOutliers l.length]? = some jx := by
    cases h : (sortByHR l)[l.length - 1 - nOutliers l.length]? with
    | none => rw [List.getElem?_eq_none_iff] at h; omega
    | some j => exact ⟨j, rfl⟩
  have hclip : clipOutliers l =
      some (clipLoop (sortByHR l) (hrKey jn) (hrKey jx) (nOutliers l.length)) := by
    rw [clipOutliers]
    simp only [hjn, hjx]
  have hbounds : clipBounds l = some (hrKey jn, hrKey jx) := by
    rw [clipBounds]
    simp only [hjn, hjx]
  have hmemn : jn ∈ l :=
    (sortByHR_perm l).mem_iff.mp (List.mem_iff_getElem?.mpr ⟨_, hjn⟩)
  have hmemx : jx ∈ l :=
    (sortByHR_perm l).mem_iff.mp (List.mem_iff_getElem?.mpr ⟨_, hjx⟩)
  have h2n' : 2 * nOutliers l.length ≤ (sortByHR l).length := by omega
  refine ⟨_, jn, jx, hclip, hjn, hjx, hbounds,
    isSome_eq_some_hrKey jn (hsome jn hmemn),
    isSome_eq_some_hrKey jx (hsome jx hmemx), ?_, ?_, ?_, ?_⟩
  · rw [length_clipLoop, hsl]
  · intro i hi
    rw [getElem?_clipLoop _ _ _ _ h2n' i, if_pos hi]
  · intro i hi1 hi2
    rw [getElem?_clipLoop _ _ _ _ h2n' i, if_neg (by omega), if_pos (by omega)]
  · intro i hi1 hi2
    rw [getElem?_clipLoop _ _ _ _ h2n' i, if_neg (by omega), if_neg (by omega)]

theorem eq_joinVal_of_mem_leftMergeHR (obsT : List Obs)
    (hcons : ObsConsistent obsT) :
    ∀ (units : List GenUnit) (j : JoinedUnit), j ∈ leftMergeHR units obsT →
      j.unit ∈ units ∧ j = ⟨j.unit, joinVal obsT j.unit⟩ := by
  intro units
  induction units with
  | nil => intro j hj; simp [leftMergeHR] at hj
  | cons u rest ih =>
    intro j hj
    rw [leftMergeHR] at hj
    rcases List.mem_append.mp hj with hblk | hrec
    · by_cases hms : obsT.filter (fun o => obsKeyMatch u o) = []
      · rw [if_pos hms] at hblk
        have hj' : j = ⟨u, none⟩ := by
          rcases List.mem_cons.mp hblk with h | h
          · exact h
          · simp at h
        subst hj'
        refine ⟨List.mem_cons_self _ _, ?_⟩
        rw [joinVal, hms]
        rfl
      · rw [if_neg hms] at hblk
        obtain ⟨o, ho, hoj⟩ := List.mem_map.mp hblk
        obtain ⟨o0, hms0⟩ : ∃ o0 ms0,
            obsT.filter (fun oo => obsKeyMatch u oo) = o0 :: ms0 := by
          cases h : obsT.filter (fun oo => obsKeyMatch u oo) with
          | nil => exact absurd h hms
          | cons a b => exact ⟨a, b, rfl⟩
        obtain ⟨ms0, hflt⟩ := hms0
        have ho0 : o0 ∈ obsT.filter (fun oo => obsKeyMatch u oo) := by
          rw [hflt]; exact List.mem_cons_self _ _
        have hkey : ∀ oo ∈ obsT.filter (fun o2 => obsKeyMatch u o2),
            oo.plantCode = u.plantCode ∧ oo.primeMover = u.primeMover ∧
              oo.energySource = u.energySource := by
          intro oo hoo
          obtain ⟨-, hk⟩ := List.mem_filter.mp hoo
          rw [obsKeyMatch] at hk
          simp only [Bool.and_eq_true, decide_eq_true_eq] at hk
          exact ⟨hk.1.1, hk.1.2, hk.2⟩
        have hhr : o.bestHeatRate = o0.bestHeatRate := by
          obtain ⟨h1, h2, h3⟩ := hkey o ho
          obtain ⟨g1, g2, g3⟩ := hkey o0 ho0
          exact hcons o (List.mem_filter.mp ho).1 o0 (List.mem_filter.mp ho0).1
            (h1.trans g1.symm) (h2.trans g2.symm) (h3.trans g3.symm)
        subst hoj
        refine ⟨List.mem_cons_self _ _, ?_⟩
        show (⟨u, some o.bestHeatRate⟩ : JoinedUnit) = ⟨u, joinVal obsT u⟩
        rw [joinVal, hflt]
        simp [hhr]
    · obtain ⟨hmem, heq⟩ := ih j hrec
      exact ⟨List.mem_cons.mpr (Or.inr hmem), heq⟩

theorem joinVal_mem_leftMergeHR (obsT : List Obs) :
    ∀ (units : List GenUnit) (u : GenUnit), u ∈ units →
      (⟨u, joinVal obsT u⟩ : JoinedUnit) ∈ leftMergeHR units obsT := by
  intro units
  induction units with
  | nil => intro u hu; simp at hu
  | cons w rest ih =>
    intro u hu
    rw [leftMergeHR]
    rcases List.mem_cons.mp hu with heq | hmem
    · subst heq
      apply List.mem_append.mpr
      left
      by_cases hms : obsT.filter (fun o => obsKeyMatch u o) = []
      · rw [if_pos hms]
        have : joinVal obsT u = none := by rw [joinVal, hms]; rfl
        rw [this]
        exact List.mem_cons_self _ _
      · rw [if_neg hms]
        obtain ⟨o0, ms0, hflt⟩ : ∃ o0 ms0,
            obsT.filter (fun oo => obsKeyMatch u oo) = o0 :: ms0 := by
          cases h : obsT.filter (fun oo => obsKeyMatch u oo) with
          | nil => exact absurd h hms
          | cons a b => exact ⟨a, b, rfl⟩
        have : joinVal obsT u = some o0.bestHeatRate := by
          rw [joinVal, hflt]; rfl
        rw [this, hflt]
        exact List.mem_cons_self _ _
    · exact List.mem_append.mpr (Or.inr (ih u hmem))

theorem countP_eq_one_of_nodup {α : Type} (p : α → Bool) (a : α) :
    ∀ (l : List α), l.Nodup → a ∈ l → (∀ x ∈ l, (p x = true ↔ x = a)) →
      l.countP p = 1 := by
  intro l
  induction l with
  | nil => intro _ h; simp at h
  | cons b l ih =>
    intro hnd hmem hp
    rw [List.countP_cons]
    rcases List.mem_cons.mp hmem with hab | hal
    · subst hab
      have hpb : p a = true := (hp a (List.mem_cons_self _ _)).mpr rfl
      have h0 : l.countP p = 0 := by
        rw [List.countP_eq_zero]
        intro x hx hpx
        have hxa : x = a := (hp x (List.mem_cons.mpr (Or.inr hx))).mp hpx
        subst hxa
        exact (List.nodup_cons.mp hnd).1 hx
      rw [h0, hpb]
      rfl
    · have hpb : p b = false := by
        cases hc : p b with
        | false => rfl
        | true =>
          have hba : b = a := (hp b (List.mem_cons_self _ _)).mp hc
          subst hba
          exact absurd hal (List.nodup_cons.mp hnd).1
      rw [ih (List.nodup_cons.mp hnd).2 hal
        (fun x hx => hp x (List.mem_cons.mpr (Or.inr hx))), hpb]
      rfl

theorem countP_filter_split {α : Type} (p q : α → Bool) (l : List α) :
    (l.filter q).countP p + (l.filter (fun x => !(q x))).countP p =
      l.countP p := by
  induction l with
  | nil => rfl
  | cons a l ih =>
    cases hq : q a with
    | false =>
      simp only [List.filter_cons, hq, Bool.not_false, if_neg, List.countP_cons,
        Bool.false_eq_true, ite_false, if_pos]
      omega
    | true =>
      simp only [List.filter_cons, hq, Bool.not_true, List.countP_cons,
        ite_true, Bool.false_eq_true, ite_false]
      omega

theorem clipLoop_map_unit (sorted : List JoinedUnit) (mn mx : ℚ) (n : Nat)
    (h2n : 2 * n ≤ sorted.length) :
    (clipLoop sorted mn mx n).map (fun j => j.unit) =
      sorted.map (fun j => j.unit) := by
  apply List.ext_getElem?
  intro i
  rw [List.getElem?_map, List.getElem?_map, getElem?_clipLoop _ _ _ n h2n i]
  by_cases h1 : i < n
  · rw [if_pos h1]
    cases sorted[i]? <;> rfl
  · rw [if_neg h1]
    by_cases h2 : sorted.length - n ≤ i
    · rw [if_pos h2]
      cases sorted[i]? <;> rfl
    · rw [if_neg h2]

theorem clipOutliers_map_unit (l out : List JoinedUnit)
    (hout : clipOutliers l = some out) :
    out.map (fun j => j.unit) = (sortByHR l).map (fun j => j.unit) := by
  have hc : 1 ≤ l.length := by
    cases l with
    | nil => exact Option.noConfusion hout
    | cons a b => simp
  rw [clipOutliers] at hout
  cases hjn : (sortByHR l)[nOutliers l.length]? with
  | none => rw [hjn] at hout; simp at hout
  | some jn =>
    cases hjx : (sortByHR l)[l.length - 1 - nOutliers l.length]? with
    | none => rw [hjn, hjx] at hout; simp at hout
    | some jx =>
      rw [hjn, hjx] at hout
      simp only [Option.some_inj] at hout
      subst hout
      exact clipLoop_map_unit _ _ _ _
        (by rw [sortByHR_length]; have := nOutliers_two_lt l.length hc; omega)

theorem units_of_clipOutliers (l out : List JoinedUnit)
    (hout : clipOutliers l = some out) (j : JoinedUnit) (hj : j ∈ out) :
    ∃ j2 ∈ l, j2.unit = j.unit := by
  have hmu : j.unit ∈ out.map (fun jj => jj.unit) := List.mem_map_of_mem _ hj
  rw [clipOutliers_map_unit l out hout] at hmu
  obtain ⟨j2, hj2, he⟩ := List.mem_map.mp hmu
  exact ⟨j2, (sortByHR_perm l).mem_iff.mp hj2, he⟩

theorem thermalAll_thermal (gens : List GenUnit) (obs : List Obs) (year : Int)
    (clipped : List JoinedUnit)
    (hclip : clipOutliers (validRows gens obs year) = some clipped)
    (j : JoinedUnit)
    (hj : j ∈ clipped ++ imputeSeq clipped (fun w => w.operatingYear)
      (invalidRows gens obs year) (List.range (invalidRows gens obs year).length)) :
    isThermal j.unit.primeMover = true := by
  rcases List.mem_append.mp hj with h1 | h2
  · obtain ⟨j2, hj2, he⟩ := units_of_clipOutliers _ _ hclip j h1
    rw [← he]
    have hj2t : j2 ∈ thermalJoined gens obs year := (List.mem_filter.mp hj2).1
    exact (List.mem_filter.mp hj2t).2
  · rw [imputeSeq_range] at h2
    obtain ⟨j2, hj2, he⟩ := List.mem_map.mp h2
    rw [← he]
    show isThermal j2.unit.primeMover = true
    have hj2t : j2 ∈ thermalJoined gens obs year := (List.mem_filter.mp hj2).1
    exact (List.mem_filter.mp hj2t).2

theorem thermalAll_countP_one (gens : List GenUnit) (obs : List Obs) (year : Int)
    (clipped : List JoinedUnit)
    (hclip : clipOutliers (validRows gens obs year) = some clipped)
    (hcons : ObsConsistent (yearObs obs year))
    (u : GenUnit) (hu : u ∈ operableOf gens) (hth : isThermal u.primeMover = true) :
    (clipped ++ imputeSeq clipped (fun w => w.operatingYear)
        (invalidRows gens obs year)
        (List.range (invalidRows gens obs year).length)).countP
      (fun j => decide (j.unit = u)) = 1 := by
  rw [List.countP_append, imputeSeq_range]
  have hclipcount : clipped.countP (fun j => decide (j.unit = u)) =
      (validRows gens obs year).countP (fun j => decide (j.unit = u)) := by
    have h1 : clipped.countP (fun j => decide (j.unit = u)) =
        (clipped.map (fun j => j.unit)).countP (fun x => decide (x = u)) := by
      rw [List.countP_map]; rfl
    rw [h1, clipOutliers_map_unit _ _ hclip, List.countP_map]
    exact List.Perm.countP_eq _ (sortByHR_perm _)
  have himp : ((invalidRows gens obs year).map
      (imputeRow clipped (fun w => w.operatingYear))).countP
        (fun j => decide (j.unit = u)) =
      (invalidRows gens obs year).countP (fun j => decide (j.unit = u)) := by
    rw [List.countP_map]; rfl
  rw [hclipcount, himp]
  have hsplit : (validRows gens obs year).countP (fun j => decide (j.unit = u)) +
      (invalidRows gens obs year).countP (fun j => decide (j.unit = u)) =
      (thermalJoined gens obs year).countP (fun j => decide (j.unit = u)) := by
    rw [validRows, invalidRows]
    have hfe : (thermalJoined gens obs year).filter
        (fun j => isNullHR j || isUnrealistic j) =
        (thermalJoined gens obs year).filter (fun j => !(isValidHR j)) := by
      apply List.filter_congr
      intro x _
      rw [isValidHR]
      cases isNullHR x <;> cases isUnrealistic x <;> rfl
    rw [hfe]
    exact countP_filter_split _ _ _
  rw [hsplit]
  have hth2 : (thermalJoined gens obs year).countP (fun j => decide (j.unit = u)) =
      (joinedRows gens obs year).countP (fun j => decide (j.unit = u)) := by
    rw [thermalJoined, List.countP_filter]
    congr 1
    funext j
    by_cases hju : j.unit = u
    · rw [hju]; simp [hth]
    · simp [hju]
  rw [hth2]
  apply countP_eq_one_of_nodup _ (⟨u, joinVal (yearObs obs year) u⟩ : JoinedUnit)
  · exact nodup_dropDuplicates _
  · rw [joinedRows, mem_dropDuplicates]
    exact joinVal_mem_leftMergeHR _ _ u hu
  · intro x hx
    rw [joinedRows, mem_dropDuplicates] at hx
    obtain ⟨-, hxeq⟩ := eq_joinVal_of_mem_leftMergeHR _ hcons _ x hx
    constructor
    · intro hpx
      have hxu : x.unit = u := by simpa using hpx
      rw [hxeq, hxu]
    · intro hxa
      rw [hxa]
      simp

theorem leftMergeBack_map_unit (tbl : List JoinedUnit) :
    ∀ (units : List GenUnit),
      (∀ u ∈ units, (tbl.filter (fun j => decide (j.unit = u))).length ≤ 1) →
      (leftMergeBack units tbl).map (fun j => j.unit) = units := by
  intro units
  induction units with
  | nil => intro _; rfl
  | cons u rest ih =>
    intro hu
    rw [leftMergeBack, List.map_append,
      ih (fun w hw => hu w (List.mem_cons.mpr (Or.inr hw)))]
    by_cases hms : tbl.filter (fun j => decide (j.unit = u)) = []
    · rw [if_pos hms]; rfl
    · rw [if_neg hms]
      obtain ⟨j0, ms0, hflt⟩ : ∃ j0 ms0,
          tbl.filter (fun j => decide (j.unit = u)) = j0 :: ms0 := by
        cases h : tbl.filter (fun j => decide (j.unit = u)) with
        | nil => exact absurd h hms
        | cons a b => exact ⟨a, b, rfl⟩
      have hle := hu u (List.mem_cons_self _ _)
      rw [hflt] at hle
      have hms0 : ms0 = [] := by
        cases ms0 with
        | nil => rfl
        | cons c d => simp at hle
      subst hms0
      have hj0mem : j0 ∈ tbl.filter (fun j => decide (j.unit = u)) := by
        rw [hflt]; exact List.mem_cons_self _ _
      have hj0 : j0.unit = u := by simpa using (List.mem_filter.mp hj0mem).2
      rw [hflt]
      simp [hj0]

theorem mem_leftMergeBack (tbl : List JoinedUnit) :
    ∀ (units : List GenUnit) (j : JoinedUnit), j ∈ leftMergeBack units tbl →
      j ∈ tbl ∨ ∃ u ∈ units, j = ⟨u, none⟩ := by
  intro units
  induction units with
  | nil => intro j hj; simp [leftMergeBack] at hj
  | cons u rest ih =>
    intro j hj
    rw [leftMergeBack] at hj
    rcases List.mem_append.mp hj with hblk | hrec
    · by_cases hms : tbl.filter (fun jj => decide (jj.unit = u)) = []
      · rw [if_pos hms] at hblk
        right
        refine ⟨u, List.mem_cons_self _ _, ?_⟩
        rcases List.mem_cons.mp hblk with h | h
        · exact h
        · simp at h
      · rw [if_neg hms] at hblk
        exact Or.inl (List.mem_filter.mp hblk).1
    · rcases ih j hrec with h | ⟨w, hw, he⟩
      · exact Or.inl h
      · exact Or.inr ⟨w, List.mem_cons.mpr (Or.inr hw), he⟩

/-- C1: for the prime mover, energy source and vintage of any unit needing
imputation, `calculate_avg_heat_rate` over the valid post-clipping
reference set returns the mean heat rate of the reference units sharing
`pm` and `es` whose operating year lies within the smallest window in
`{2,4,6,...}` yielding at least 4 matches — or within the widest window,
90, the expansion reaches when no window yields 4 — and when that final
match set is empty it returns the mean over all reference units sharing
`pm` alone, which is itself null (`none`) when no reference unit shares
`pm`. -/
theorem C1_expanding_window_imputation (ref : List JoinedUnit) (pm es : String)
    (v : Int) :
    calculate_avg_heat_rate ref pm es v =
      if (matchesPMES ref pm es v (smallestWindow ref pm es v)).length = 0 then
        meanHR (hrVals (ref.filter (fun j => decide (j.unit.primeMover = pm))))
      else meanHR (hrVals (matchesPMES ref pm es v (smallestWindow ref pm es v))) := by
  have hs := hrLoop_window_spec ref pm es v 43 1 45 (by norm_num) (le_refl 1)
    (by norm_num)
  have h21 : (2 : Nat) * 1 = 2 := by norm_num
  have h461 : (46 : Nat) - 1 = 45 := by norm_num
  rw [h21, h461] at hs
  have hsw : smallestWindow ref pm es v =
      ((((List.range' 1 45).map (fun j => 2 * j)).find?
        (fun w => decide (4 ≤ (matchesPMES ref pm es v w).length))).getD 90) := rfl
  rw [← hsw] at hs
  unfold calculate_avg_heat_rate
  rw [hs]
  by_cases h0 : (matchesPMES ref pm es v (smallestWindow ref pm es v)).length = 0
  · rw [if_neg (by omega), if_pos h0]
  · rw [if_pos (by omega), if_neg h0]

/-- C9: the expanding-window search always terminates with a bounded
iteration count: starting at window 2 and growing by 2, the loop performs
at most 44 window expansions (45 windows examined in all, `2,4,...,90`),
and any recursion budget of at least 44 yields the identical result, so
the bounded embedding is the loop's exact behaviour. -/
theorem C9_window_search_terminates (ref : List JoinedUnit) (pm es : String)
    (v : Int) (fuel : Nat) :
    (hrLoopCount ref pm es v 45 2 (matchesPMES ref pm es v 2)).2 ≤ 44 ∧
    (hrLoopCount ref pm es v 45 2 (matchesPMES ref pm es v 2)).1 =
      hrLoop ref pm es v 45 2 (matchesPMES ref pm es v 2) ∧
    hrLoop ref pm es v (44 + fuel) 2 (matchesPMES ref pm es v 2) =
      hrLoop ref pm es v 45 2 (matchesPMES ref pm es v 2) := by
  refine ⟨?_, hrLoopCount_fst ref pm es v 45 2 _, ?_⟩
  · have h := hrLoopCount_le ref pm es v 45 2 (matchesPMES ref pm es v 2)
      (by norm_num) (by norm_num) (by norm_num)
    omega
  · have h1 := hrLoop_window_spec ref pm es v 43 1 (44 + fuel) (by norm_num)
      (le_refl 1) (by omega)
    have h2 := hrLoop_window_spec ref pm es v 43 1 45 (by norm_num) (le_refl 1)
      (by norm_num)
    have h21 : (2 : Nat) * 1 = 2 := by norm_num
    rw [h21] at h1 h2
    rw [h1, h2]

/-- C10: the imputation loop writes each row from the fixed clipped
reference set and the row's own prime mover, energy source and vintage
only — imputed values are never fed back into the reference set — so
processing the rows in any order (any permutation of the index range)
produces the same table as the order-free per-row map. -/
theorem C10_imputation_order_invariant (clipped : List JoinedUnit)
    (vOf : GenUnit → Int) (tbl : List JoinedUnit) (order : List Nat)
    (hperm : order.Perm (List.range tbl.length)) :
    imputeSeq clipped vOf tbl order = tbl.map (imputeRow clipped vOf) :=
  imputeSeq_of_perm_range clipped vOf tbl order hperm

theorem C10_witness :
    imputeSeq [] (fun u => u.operatingYear)
        [⟨exU1, none⟩, ⟨exU2, none⟩] [1, 0] =
      [(⟨exU1, none⟩ : JoinedUnit), ⟨exU2, none⟩].map
        (imputeRow [] (fun u => u.operatingYear)) :=
  C10_imputation_order_invariant [] (fun u => u.operatingYear)
    [⟨exU1, none⟩, ⟨exU2, none⟩] [1, 0] (by decide)

/-- C3 (code bug): when `count(valid) = 0` the spec says Step 3 is a no-op
(nothing raised, nothing modified) and the missing/unrealistic units fall
through to imputation; the code instead evaluates
`thermal_gens_w_hr.index[n_outliers]` on the empty sorted frame, which
raises `IndexError` (modelled by `none`), so the whole assignment aborts
and no imputation happens. -/
theorem C3_empty_valid_set_raises :
    validRows [exU2] [] 2015 = [] ∧
    invalidRows [exU2] [] 2015 = [⟨mapUnitFuel exU2, none⟩] ∧
    clipOutliers [] = none ∧
    assignHeatRates [exU2] [] 2015 = none :=
  ⟨by with_unfolding_all decide, by with_unfolding_all decide, rfl,
    by with_unfolding_all decide⟩

/-- C4: the joined thermal rows are partitioned into exactly one of
missing / unrealistic / valid; a null reading is classified missing and
never unrealistic (pandas comparisons with NaN are false); a Gas reading
of 5.0, below the non-coal floor 6.711, is classified unrealistic, and in
the pipeline such a unit is re-imputed — its output heat rate is the
imputed mean 9, not the reported 5.0. -/
theorem C4_classification_partition :
    (∀ j : JoinedUnit,
      (isNullHR j = true ∧ isUnrealistic j = false ∧ isValidHR j = false) ∨
      (isNullHR j = false ∧ isUnrealistic j = true ∧ isValidHR j = false) ∨
      (isNullHR j = false ∧ isUnrealistic j = false ∧ isValidHR j = true)) ∧
    (∀ j : JoinedUnit, j.bestHeatRate = none → isUnrealistic j = false) ∧
    isUnrealistic ⟨mapUnitFuel exU5, some 5⟩ = true ∧
    assignHeatRates exGens4 exObsList4 2015 = some exOut4 ∧
    (⟨mapUnitFuel exU5, some 9⟩ : JoinedUnit) ∈ exOut4 ∧
    (⟨mapUnitFuel exU5, some 5⟩ : JoinedUnit) ∉ exOut4 := by
  have hnone : ∀ j : JoinedUnit, j.bestHeatRate = none → isUnrealistic j = false := by
    intro j h
    simp [isUnrealistic, h]
  refine ⟨?_, hnone, by with_unfolding_all decide, by with_unfolding_all rfl,
    by with_unfolding_all decide, by with_unfolding_all decide⟩
  intro j
  cases hn : isNullHR j with
  | true =>
    left
    have hjn : j.bestHeatRate = none := by
      rw [isNullHR] at hn
      exact Option.isNone_iff_eq_none.mp hn
    refine ⟨rfl, hnone j hjn, ?_⟩
    rw [isValidHR, hn]
    rfl
  | false =>
    cases hu : isUnrealistic j with
    | true =>
      right; left
      exact ⟨rfl, rfl, by rw [isValidHR, hn, hu]; rfl⟩
    | false =>
      right; right
      exact ⟨rfl, rfl, by rw [isValidHR, hn, hu]; rfl⟩

theorem C4_witness : isUnrealistic ⟨exU4, none⟩ = false :=
  C4_classification_partition.2.1 ⟨exU4, none⟩ rfl

/-- C2: on a nonempty valid batch of `c` rows, with `n = floor(0.008*c)`,
Step 3 takes `min_hr`/`max_hr` from ranks `n` and `c-1-n` of the
ascending sort, overwrites exactly the `n` lowest-ranked rows with
`min_hr` and exactly the `n` highest-ranked rows with `max_hr`, and
leaves every other row's value unchanged (`ClipSpec` states precisely
this, position by position over the sorted order). -/
theorem C2_winsorization (l : List JoinedUnit) (hne : l ≠ [])
    (hsome : ∀ j ∈ l, j.bestHeatRate.isSome = true) : ClipSpec l :=
  clipOutliers_char l hne hsome

theorem C2_witness : ClipSpec [⟨exU1, some 9⟩, ⟨exU2, some 8⟩] :=
  C2_winsorization [⟨exU1, some 9⟩, ⟨exU2, some 8⟩] (by decide) (by decide)

/-- C7: after Step 3's clipping, every row of the clipped valid set
carries a heat-rate value lying within `[min_hr, max_hr]` inclusive,
where `min_hr`/`max_hr` are the clip bounds computed from that batch. -/
theorem C7_clipped_values_within_bounds (l out : List JoinedUnit) (mn mx : ℚ)
    (hsome : ∀ j ∈ l, j.bestHeatRate.isSome = true)
    (hout : clipOutliers l = some out)
    (hbounds : clipBounds l = some (mn, mx)) :
    ∀ j ∈ out, ∃ q, j.bestHeatRate = some q ∧ mn ≤ q ∧ q ≤ mx := by
  have hne : l ≠ [] := by
    intro h
    subst h
    exact Option.noConfusion hout
  obtain ⟨out', jn, jx, hclip', hjn, hjx, hbounds', hjnv, hjxv, hlen, hlow,
    hhigh, hmid⟩ := clipOutliers_char l hne hsome
  have houteq : out = out' := by
    rw [hclip'] at hout
    exact (Option.some_inj.mp hout).symm
  subst houteq
  have hmnx : mn = hrKey jn ∧ mx = hrKey jx := by
    rw [hbounds'] at hbounds
    have := Option.some_inj.mp hbounds
    exact ⟨congrArg Prod.fst this.symm, congrArg Prod.snd this.symm⟩
  obtain ⟨hmn, hmx⟩ := hmnx
  subst hmn
  subst hmx
  have hc : 1 ≤ l.length := List.length_pos.mpr hne
  have h2n : 2 * nOutliers l.length < l.length := nOutliers_two_lt _ hc
  have hmono : ∀ (i1 i2 : Nat), i1 ≤ i2 → ∀ a b, (sortByHR l)[i1]? = some a →
      (sortByHR l)[i2]? = some b → hrKey a ≤ hrKey b := by
    intro i1 i2 hle a b ha hb
    obtain ⟨h1, he1⟩ := List.getElem?_eq_some.mp ha
    obtain ⟨h2, he2⟩ := List.getElem?_eq_some.mp hb
    rcases Nat.lt_or_ge i1 i2 with hlt | hge
    · have hr := List.Sorted.rel_get_of_lt (sortByHR_sorted l)
        (a := ⟨i1, h1⟩) (b := ⟨i2, h2⟩) (by exact hlt)
      rw [List.get_eq_getElem, List.get_eq_getElem] at hr
      rw [he1, he2] at hr
      exact hr
    · have hii : i1 = i2 := by omega
      subst hii
      rw [ha] at hb
      rw [Option.some_inj.mp hb]
  intro j hj
  obtain ⟨i, hi⟩ := List.mem_iff_getElem?.mp hj
  have hilen : i < l.length := by
    obtain ⟨h, -⟩ := List.getElem?_eq_some.mp hi
    omega
  have hjnjx : hrKey jn ≤ hrKey jx :=
    hmono (nOutliers l.length) (l.length - 1 - nOutliers l.length) (by omega)
      jn jx hjn hjx
  by_cases h1 : i < nOutliers l.length
  · rw [hlow i h1] at hi
    obtain ⟨s, hs, hsj⟩ := Option.map_eq_some'.mp hi
    refine ⟨hrKey jn, ?_, le_refl _, hjnjx⟩
    rw [← hsj]
  · by_cases h2 : l.length - nOutliers l.length ≤ i
    · rw [hhigh i h2 hilen] at hi
      obtain ⟨s, hs, hsj⟩ := Option.map_eq_some'.mp hi
      refine ⟨hrKey jx, ?_, hjnjx, le_refl _⟩
      rw [← hsj]
    · rw [hmid i (by omega) (by omega)] at hi
      have hjl : j ∈ l :=
        (sortByHR_perm l).mem_iff.mp (List.mem_iff_getElem?.mpr ⟨i, hi⟩)
      refine ⟨hrKey j, isSome_eq_some_hrKey j (hsome j hjl), ?_, ?_⟩
      · exact hmono (nOutliers l.length) i (by omega) jn j hjn hi
      · exact hmono i (l.length - 1 - nOutliers l.length) (by omega) j jx hi hjx

theorem C7_witness :
    ∃ q, (⟨exU1, some 9⟩ : JoinedUnit).bestHeatRate = some q ∧ 9 ≤ q ∧ q ≤ 9 :=
  C7_clipped_values_within_bounds [⟨exU1, some 9⟩] [⟨exU1, some 9⟩] 9 9
    (by decide) (by with_unfolding_all rfl) (by with_unfolding_all rfl)
    ⟨exU1, some 9⟩ (by decide)

theorem assignHeatRates_eq (gens : List GenUnit) (obs : List Obs) (year : Int)
    (clipped : List JoinedUnit)
    (hclip : clipOutliers (validRows gens obs year) = some clipped) :
    assignHeatRates gens obs year =
      some (leftMergeBack (operableOf gens)
          (clipped ++ imputeSeq clipped (fun u => u.operatingYear)
            (invalidRows gens obs year)
            (List.range (invalidRows gens obs year).length)) ++
        (imputeSeq clipped (fun _ => year)
            (((proposedOf gens).filter (fun u => isThermal u.primeMover)).map
              (fun u => (⟨u, none⟩ : JoinedUnit)))
            (List.range (((proposedOf gens).filter
              (fun u => isThermal u.primeMover)).map
              (fun u => (⟨u, none⟩ : JoinedUnit))).length) ++
          ((proposedOf gens).filter (fun u => !(isThermal u.primeMover))).map
            (fun u => (⟨u, none⟩ : JoinedUnit)))) := by
  unfold assignHeatRates
  rw [hclip]

/-- C6: every output row whose prime mover is not in `{CC, GT, IC, ST}`
(hydro, wind, solar, ...) carries a null `best_heat_rate`, whatever its
operational status and whatever historical observations exist for it. -/
theorem C6_nonthermal_always_null (gens : List GenUnit) (obs : List Obs)
    (year : Int) (out : List JoinedUnit)
    (hout : assignHeatRates gens obs year = some out) :
    ∀ j ∈ out, isThermal j.unit.primeMover = false → j.bestHeatRate = none := by
  intro j hj hth
  cases hclip : clipOutliers (validRows gens obs year) with
  | none =>
    unfold assignHeatRates at hout
    rw [hclip] at hout
    exact Option.noConfusion hout
  | some clipped =>
    rw [assignHeatRates_eq gens obs year clipped hclip] at hout
    injection hout with hout
    rw [← hout] at hj
    rcases List.mem_append.mp hj with h1 | h2
    · rcases mem_leftMergeBack _ _ j h1 with hmem | ⟨u, hu, he⟩
      · have hjt := thermalAll_thermal gens obs year clipped hclip j hmem
        rw [hjt] at hth
        exact Bool.noConfusion hth
      · rw [he]
    · rcases List.mem_append.mp h2 with h3 | h4
      · rw [imputeSeq_range] at h3
        obtain ⟨j2, hj2, he⟩ := List.mem_map.mp h3
        obtain ⟨u, hu, he2⟩ := List.mem_map.mp hj2
        have hut : isThermal u.primeMover = true := (List.mem_filter.mp hu).2
        rw [← he, ← he2] at hth
        have hth2 : isThermal u.primeMover = false := hth
        rw [hut] at hth2
        exact Bool.noConfusion hth2
      · obtain ⟨u, hu, he⟩ := List.mem_map.mp h4
        rw [← he]

theorem C6_witness : (⟨mapUnitFuel exU4, none⟩ : JoinedUnit).bestHeatRate = none :=
  C6_nonthermal_always_null exGens exObsList 2015 exOut
    (by with_unfolding_all rfl) ⟨mapUnitFuel exU4, none⟩
    (by with_unfolding_all decide) (by decide)

/-- C5: every Proposed thermal unit receives the Step 4 imputation applied
to the valid, clipped set of existing units, anchored at the filing
`year` — not at the unit's own operating year — and every Proposed
non-thermal unit receives a null heat rate. -/
theorem C5_proposed_units (gens : List GenUnit) (obs : List Obs) (year : Int)
    (clipped out : List JoinedUnit)
    (hclip : clippedValid gens obs year = some clipped)
    (hout : assignHeatRates gens obs year = some out)
    (u : GenUnit) (hu : u ∈ mappedGens gens)
    (hprop : u.operationalStatus = "Proposed") :
    (isThermal u.primeMover = true →
      (⟨u, calculate_avg_heat_rate clipped u.primeMover u.energySource year⟩ :
        JoinedUnit) ∈ out) ∧
    (isThermal u.primeMover = false → (⟨u, none⟩ : JoinedUnit) ∈ out) := by
  rw [clippedValid] at hclip
  rw [assignHeatRates_eq gens obs year clipped hclip] at hout
  injection hout with hout
  have hup : u ∈ proposedOf gens :=
    List.mem_filter.mpr ⟨hu, by simp [hprop]⟩
  constructor
  · intro hth
    have hutp : u ∈ (proposedOf gens).filter (fun w => isThermal w.primeMover) :=
      List.mem_filter.mpr ⟨hup, hth⟩
    rw [← hout]
    apply List.mem_append.mpr
    right
    apply List.mem_append.mpr
    left
    rw [imputeSeq_range]
    have hrw : (⟨u, calculate_avg_heat_rate clipped u.primeMover
        u.energySource year⟩ : JoinedUnit) =
        imputeRow clipped (fun _ => year) ⟨u, none⟩ := rfl
    rw [hrw]
    exact List.mem_map_of_mem _ (List.mem_map_of_mem _ hutp)
  · intro hth
    have huop : u ∈ (proposedOf gens).filter
        (fun w => !(isThermal w.primeMover)) :=
      List.mem_filter.mpr ⟨hup, by rw [hth]; rfl⟩
    rw [← hout]
    apply List.mem_append.mpr
    right
    apply List.mem_append.mpr
    right
    exact List.mem_map_of_mem _ huop

theorem C5_witness :
    (⟨mapUnitFuel exU3, calculate_avg_heat_rate exClipped
        (mapUnitFuel exU3).primeMover (mapUnitFuel exU3).energySource 2015⟩ :
      JoinedUnit) ∈ exOut :=
  (C5_proposed_units exGens exObsList 2015 exClipped exOut
    (by with_unfolding_all rfl) (by with_unfolding_all rfl)
    (mapUnitFuel exU3) (by decide) (by decide)).1 (by decide)

/-- C8: under the spec's data-model assumptions — every input row's
operational status is `Operable` or `Proposed` (exactly what the scraper
writes), and observations sharing a key for the target year are
consistent (carry equal heat rates, so the join's duplicates collapse to
a single row) — the output table holds exactly one row per input
generator row: the multiset of output units is a permutation of the
(fuel-renamed) input units, so no row is dropped and none is duplicated
by the join. -/
theorem C8_one_output_row_per_input_row (gens : List GenUnit) (obs : List Obs)
    (year : Int) (out : List JoinedUnit)
    (hout : assignHeatRates gens obs year = some out)
    (hstatus : ∀ u ∈ gens, u.operationalStatus = "Operable" ∨
      u.operationalStatus = "Proposed")
    (hcons : ObsConsistent (yearObs obs year)) :
    (out.map (fun j => j.unit)).Perm (mappedGens gens) := by
  cases hclip : clipOutliers (validRows gens obs year) with
  | none =>
    unfold assignHeatRates at hout
    rw [hclip] at hout
    exact Option.noConfusion hout
  | some clipped =>
    rw [assignHeatRates_eq gens obs year clipped hclip] at hout
    injection hout with hout
    rw [← hout, List.map_append, List.map_append]
    have hex : (leftMergeBack (operableOf gens)
        (clipped ++ imputeSeq clipped (fun u => u.operatingYear)
          (invalidRows gens obs year)
          (List.range (invalidRows gens obs year).length))).map
        (fun j => j.unit) = operableOf gens := by
      apply leftMergeBack_map_unit
      intro u hu
      by_cases hth : isThermal u.primeMover = true
      · have h1 := thermalAll_countP_one gens obs year clipped hclip hcons u hu hth
        rw [List.countP_eq_length_filter] at h1
        omega
      · have h0 : (clipped ++ imputeSeq clipped (fun w => w.operatingYear)
            (invalidRows gens obs year)
            (List.range (invalidRows gens obs year).length)).filter
            (fun j => decide (j.unit = u)) = [] := by
          rw [List.filter_eq_nil_iff]
          intro j hj hp
          have hjt := thermalAll_thermal gens obs year clipped hclip j hj
          have hju : j.unit = u := by simpa using hp
          rw [hju] at hjt
          exact hth hjt
        rw [h0]
        simp
    rw [hex]
    have hp1 : ((imputeSeq clipped (fun _ => year)
        (((proposedOf gens).filter (fun u => isThermal u.primeMover)).map
          (fun u => (⟨u, none⟩ : JoinedUnit)))
        (List.range (((proposedOf gens).filter
          (fun u => isThermal u.primeMover)).map
          (fun u => (⟨u, none⟩ : JoinedUnit))).length)).map
        (fun j => j.unit)) =
        (proposedOf gens).filter (fun u => isThermal u.primeMover) := by
      rw [imputeSeq_range, List.map_map, List.map_map]
      have hfun : ((fun j : JoinedUnit => j.unit) ∘
          imputeRow clipped (fun _ => year)) ∘
          (fun u => (⟨u, none⟩ : JoinedUnit)) = fun u => u := rfl
      rw [hfun]
      exact List.map_id' _
    have hp2 : ((((proposedOf gens).filter
        (fun u => !(isThermal u.primeMover))).map
          (fun u => (⟨u, none⟩ : JoinedUnit))).map (fun j => j.unit)) =
        (proposedOf gens).filter (fun u => !(isThermal u.primeMover)) := by
      rw [List.map_map]
      exact List.map_id' _
    rw [hp1, hp2]
    have hprop : ((proposedOf gens).filter (fun u => isThermal u.primeMover) ++
        (proposedOf gens).filter (fun u => !(isThermal u.primeMover))).Perm
        (proposedOf gens) := List.filter_append_perm _ _
    have hstat : (operableOf gens ++ proposedOf gens).Perm (mappedGens gens) := by
      rw [operableOf, proposedOf]
      have hpe : (mappedGens gens).filter
          (fun u => decide (u.operationalStatus = "Proposed")) =
          (mappedGens gens).filter
            (fun u => !(decide (u.operationalStatus = "Operable"))) := by
        apply List.filter_congr
        intro x hx
        obtain ⟨u0, hu0, he⟩ := List.mem_map.mp hx
        have hstx : x.operationalStatus = "Operable" ∨
            x.operationalStatus = "Proposed" := by
          rw [← he]
          exact hstatus u0 hu0
        rcases hstx with h | h <;> simp [h]
      rw [hpe]
      exact List.filter_append_perm _ _
    exact (hprop.append_left (operableOf gens)).trans hstat

theorem C8_witness : (exOut.map (fun j => j.unit)).Perm (mappedGens exGens) :=
  C8_one_output_row_per_input_row exGens exObsList 2015 exOut
    (by with_unfolding_all rfl) (by decide) (by unfold ObsConsistent; decide)
